import Mathlib

/-!
Verification model of the pixel-serve-server image delivery handler.

JavaScript strings are shallowly embedded as lists of characters (`JStr`),
buffers as lists of bytes (`Bytes`).  Canonical absolute filesystem paths are
represented as lists of path segments; the posix `path` module operations used
by the source (`resolve`, `relative`, `basename`, `extname`, `isAbsolute`,
`sep`) are modelled over these representations.  External collaborators
(filesystem, URL parser, HTTP client, the sharp codec, the sha1 hash) are
abstract components of an environment record, exactly as the specification
scopes them.
-/

namespace PixelServe

/-- A JavaScript string, modelled as its list of characters. -/
abbrev JStr := List Char

/-- Contents of a `Buffer`, modelled as a list of bytes. -/
abbrev Bytes := List Nat

/-- Shorthand turning a Lean string literal into the model's string type. -/
def js (s : String) : JStr := s.data

/-- `path.sep` on posix. -/
def sepChar : Char := '/'

/-- Model of `path.isAbsolute` (posix): the path starts with `/`. -/
def pathIsAbsolute (s : JStr) : Bool := s.head? = some sepChar

/-- Split a path string into its `/`-separated pieces. -/
def splitSegs (s : JStr) : List JStr := s.splitOn sepChar

/-- Normalization step of `path.resolve`: empty and `.` pieces are dropped,
`..` removes the previous segment (and is a no-op at the root). -/
def normSegs (segs : List JStr) : List JStr :=
  segs.foldl
    (fun acc seg =>
      if seg = [] then acc
      else if seg = ['.'] then acc
      else if seg = ['.', '.'] then acc.dropLast
      else acc ++ [seg]) []

/-- Model of `path.resolve(base, p)` where `base` is the segment list of an
absolute path: an absolute `p` restarts from the root, a relative `p` is
appended to `base`, and the result is normalized. -/
def resolveAgainst (base : List JStr) (p : JStr) : List JStr :=
  if pathIsAbsolute p then normSegs (splitSegs p)
  else normSegs (base ++ splitSegs p)

/-- Render canonical absolute segments back to the path string:
`[] ↦ "/"`, `[a, b] ↦ "/a/b"`. -/
def joinAbs (segs : List JStr) : JStr :=
  if segs.isEmpty then [sepChar] else segs.flatMap (fun s => sepChar :: s)

/-- Length of the common leading run of equal segments (the common base used
by posix `path.relative`). -/
def commonLen : List JStr → List JStr → Nat
  | x :: xs, y :: ys => if x = y then commonLen xs ys + 1 else 0
  | _, _ => 0

/-- Segments of posix `path.relative(b, p)` for canonical absolute `b`, `p`:
one `..` per segment of `b` past the common base, then the remainder of `p`. -/
def relSegs (b p : List JStr) : List JStr :=
  List.replicate (b.length - commonLen b p) ['.', '.'] ++ p.drop (commonLen b p)

/-- The string `path.relative(b, p)` returns. -/
def relString (b p : List JStr) : JStr :=
  List.intercalate [sepChar] (relSegs b p)

/-- Abstract filesystem as seen by `node:fs/promises`:
`realpath` canonicalizes an absolute path through symlinks (`none` when the
entry does not exist or the call fails), `isDir` is `stat(...).isDirectory()`,
`readFile` returns file contents (`none` on any I/O error, e.g. a directory),
`statSize` is `stat(...).size` (`none` when `stat` fails).  `cwd` backs
`path.resolve` for relative base paths. -/
structure FSModel where
  cwd : List JStr
  realpath : List JStr → Option (List JStr)
  isDir : List JStr → Bool
  readFile : List JStr → Option Bytes
  statSize : List JStr → Option Nat

/-- Model of `isValidPath` (src/functions.ts:19-52).  The source never
throws: every rejected promise inside the `try` is converted to `false` by
the surrounding `catch`, which the model reflects by being total.  The
guards appear in source order: falsy arguments, a literal NUL check, the
`path.isAbsolute` check, the `/^[^\x00-\x1F]+$/` control-character test,
then resolution, `realpath` of both paths (a failure of either rejects the
`Promise.all` and yields `false`), the directory test on the real base, and
finally the string containment conjunction
`!relative.startsWith("..") && !path.isAbsolute(relative) && isInside`. -/
def isValidPath (fs : FSModel) (basePath specifiedPath : JStr) : Bool :=
  if basePath = [] || specifiedPath = [] then false
  else if specifiedPath.contains (Char.ofNat 0) then false
  else if pathIsAbsolute specifiedPath then false
  else if !(!specifiedPath.isEmpty && specifiedPath.all (fun c => !(c.toNat < 32))) then false
  else
    let resolvedBase := resolveAgainst fs.cwd basePath
    let resolvedPath := resolveAgainst resolvedBase specifiedPath
    match fs.realpath resolvedBase, fs.realpath resolvedPath with
    | some realBase, some realPath =>
      if !(fs.isDir realBase) then false
      else
        let normalizedBase := joinAbs realBase ++ [sepChar]
        let normalizedPath := joinAbs realPath ++ [sepChar]
        let isInside := normalizedBase.isPrefixOf normalizedPath || realPath == realBase
        let rel := relString realBase realPath
        !(['.', '.'].isPrefixOf rel) && !(pathIsAbsolute rel) && isInside
    | _, _ => false

/-- A canonical path segment: nonempty and free of the separator. -/
def canonSeg (s : JStr) : Prop := s ≠ [] ∧ sepChar ∉ s

/-- Canonicity of a `realpath` result: every segment is canonical. -/
def canonPath (p : List JStr) : Prop := ∀ s ∈ p, canonSeg s

instance canonSegDecidable (s : JStr) : Decidable (canonSeg s) :=
  decidable_of_iff (s ≠ [] ∧ sepChar ∉ s) Iff.rfl

instance canonPathDecidable (p : List JStr) : Decidable (canonPath p) :=
  List.decidableBAll canonSeg p

/-- No segment at the head of the list begins with the two characters `..`
(true of ordinary file names; `"..foo"`-style names are the exception). -/
def noDotDotHead (segs : List JStr) : Prop :=
  ∀ s, segs.head? = some s → ¬ ['.', '.'] <+: s

/-- Model of `path.resolve(a, b)`: an absolute `b` wins, otherwise `b` is
resolved against `a` (itself resolved against the working directory). -/
def jsResolve2 (cwd : List JStr) (a b : JStr) : List JStr :=
  if pathIsAbsolute b then normSegs (splitSegs b)
  else resolveAgainst (resolveAgainst cwd a) b

/-- `String.prototype.toLowerCase` restricted to the ASCII range used by
format names and MIME types. -/
def lowerStr (s : JStr) : JStr := s.map Char.toLower

/-- The whitespace set trimmed by `String.prototype.trim`. -/
def isJsSpace (c : Char) : Bool := c = ' ' || c = '\t' || c = '\n' || c = '\r'

/-- Model of `String.prototype.trim`. -/
def jsTrim (s : JStr) : JStr :=
  ((s.dropWhile isJsSpace).reverse.dropWhile isJsSpace).reverse

/-- The image category (`ImageType` in src/types.ts). -/
inductive ImageType where
  | normal
  | avatar
deriving DecidableEq, Repr

/-- `allowedFormats` from src/variables.ts. -/
def allowedFormats : List JStr :=
  [js "jpeg", js "jpg", js "png", js "webp", js "gif", js "tiff", js "avif", js "svg"]

/-- `mimeTypes` from src/variables.ts. -/
def mimeTypes : List (JStr × JStr) :=
  [(js "jpeg", js "image/jpeg"), (js "jpg", js "image/jpeg"),
   (js "png", js "image/png"), (js "webp", js "image/webp"),
   (js "gif", js "image/gif"), (js "tiff", js "image/tiff"),
   (js "avif", js "image/avif"), (js "svg", js "image/svg+xml")]

/-- `mimeTypes[format]` lookup used by `res.type`. -/
def mimeOf (fmt : JStr) : JStr := (mimeTypes.lookup fmt).getD []

/-- `Object.values(mimeTypes)` as used by `fetchFromNetwork`. -/
def mimeValues : List JStr := mimeTypes.map Prod.snd

/-- The default routing prefix: `API_REGEX = /^\/api\/v1\//` is an anchored
literal prefix, modelled as the string it matches at position 0.  Configured
`apiRegex` values are modelled the same way (an anchored literal prefix),
which covers every pattern the repository constructs. -/
def apiPrefixDefault : JStr := js "/api/v1/"

/-- Model of `pathname.replace(apiRegex, "")` for an anchored literal-prefix
pattern: when the prefix matches it is removed, otherwise the string is
returned unchanged. -/
def stripPrefixPattern (p s : JStr) : JStr :=
  if p.isPrefixOf s then s.drop p.length else s

/-- Result of `new URL(src)` when parsing succeeds. -/
structure URLRec where
  protocol : JStr
  hostname : JStr
  host : JStr
  pathname : JStr
deriving DecidableEq, Repr

/-- A resolved `axios.get` response (axios only resolves for 2xx statuses
within the configured size bounds; every other outcome rejects). -/
structure NetResp where
  contentType : Option JStr
  body : Bytes
deriving DecidableEq, Repr

/-- Options handed to the sharp pipeline in `serveImage`: whether `resize`
was requested (width or height present), the clamped dimensions, the output
format and quality.  The constant parts (`fit: cover`,
`withoutEnlargement: true`, `rotate()`, `failOn: "truncated"`) live inside
the abstract codec. -/
structure TransformOpts where
  resize : Bool
  width : Option Int
  height : Option Int
  format : JStr
  quality : Int
deriving DecidableEq, Repr

/-- External collaborators of the handler, as scoped by the specification:
the filesystem, the WHATWG URL parser, the HTTP client (`none` models any
rejection: timeout, non-2xx, transport error, oversize), the fallback asset
loader `FALLBACKIMAGES` (`none` models a failed read of the packaged
asset), the sharp codec (`none` models a codec failure) and the sha1 hex
digest used for ETags. -/
structure Env where
  fs : FSModel
  parseURL : JStr → Option URLRec
  net : JStr → Int → Int → Option NetResp
  fallback : ImageType → Option Bytes
  transform : Bytes → TransformOpts → Option Bytes
  hashHex : Bytes → JStr

/-- Observable effects of source resolution: entering `readLocalImage` with
a candidate path, an actual `fs.readFile` of a resolved file, and an
`axios.get` network call. -/
inductive Effect where
  | localRead (p : JStr)
  | fileRead (p : List JStr)
  | netGet (url : JStr)
deriving DecidableEq, Repr

/-- The content-type normalization in `fetchFromNetwork`
(src/functions.ts:81-84): lower-case, take the part before the first `;`,
trim. -/
def normalizeContentType (ct : Option JStr) : Option JStr :=
  ct.map (fun s => jsTrim ((lowerStr s).takeWhile (fun c => c ≠ ';')))

/-- The MIME acceptance test `allowedMimeTypes.includes(contentType ?? "")`
(src/functions.ts:85-87). -/
def acceptableContentType (ct : Option JStr) : Bool :=
  mimeValues.contains ((normalizeContentType ct).getD [])

/-- Model of `fetchFromNetwork` (src/functions.ts:61-94): a bounded GET; on
rejection or unacceptable content type the category fallback is returned.
A failing fallback read propagates as `none` (the promise rejects). -/
def fetchFromNetwork (env : Env) (src : JStr) (imgType : ImageType)
    (timeoutMs maxBytes : Int) : Option Bytes × List Effect :=
  match env.net src timeoutMs maxBytes with
  | none => (env.fallback imgType, [.netGet src])
  | some resp =>
    if acceptableContentType resp.contentType then (some resp.body, [.netGet src])
    else (env.fallback imgType, [.netGet src])

/-- Model of `readLocalImage` (src/functions.ts:104-126): validate the path,
then (when `maxBytes` is supplied and truthy — `0` is falsy in JS) stat and
compare the size, then read the file; every failure yields the category
fallback. -/
def readLocalImage (env : Env) (filePath baseDir : JStr) (imgType : ImageType)
    (maxBytes : Option Int) : Option Bytes × List Effect :=
  if !(isValidPath env.fs baseDir filePath) then
    (env.fallback imgType, [.localRead filePath])
  else
    let resolvedFile := jsResolve2 env.fs.cwd baseDir filePath
    let readIt : Option Bytes × List Effect :=
      (match env.fs.readFile resolvedFile with
       | some b => some b
       | none => env.fallback imgType,
       [.localRead filePath, .fileRead resolvedFile])
    match maxBytes with
    | some mb =>
      if mb ≠ 0 then
        match env.fs.statSize resolvedFile with
        | none => (env.fallback imgType, [.localRead filePath])
        | some size =>
          if (size : Int) > mb then (env.fallback imgType, [.localRead filePath])
          else readIt
      else readIt
    | none => readIt

/-- The internal-host test of `fetchImage` (src/functions.ts:155-157):
`websiteURL !== undefined && [websiteURL, "www." + websiteURL]
.includes(url.hostname)`. -/
def isInternalHost (websiteURL : Option JStr) (hostname : JStr) : Bool :=
  match websiteURL with
  | some w => hostname == w || hostname == (js "www." ++ w)
  | none => false

/-- Model of `fetchImage` (src/functions.ts:138-177).  `new URL(src)`
throwing (parse failure) lands in the `catch`, which delegates to
`readLocalImage` on the raw source. -/
def fetchImage (env : Env) (src baseDir : JStr) (websiteURL : Option JStr)
    (imgType : ImageType) (apiPrefix : JStr) (allowedNetworkList : List JStr)
    (timeoutMs maxBytes : Int) : Option Bytes × List Effect :=
  match env.parseURL src with
  | none => readLocalImage env src baseDir imgType (some maxBytes)
  | some url =>
    if isInternalHost websiteURL url.hostname then
      readLocalImage env (stripPrefixPattern apiPrefix url.pathname) baseDir imgType
        (some maxBytes)
    else if !(allowedNetworkList.contains url.hostname
        || allowedNetworkList.contains url.host) then
      (env.fallback imgType, [])
    else if !(url.protocol == js "http:" || url.protocol == js "https:") then
      (env.fallback imgType, [])
    else fetchFromNetwork env src imgType timeoutMs maxBytes

/-- The raw per-request query parameters handed to `userDataSchema`
(src/schema.ts:7-75).  Numeric fields arrive as numbers or numeric strings
and are passed through `Number(...)` by the schema's transforms before the
integer range checks; the model takes the resulting numeric value.  The
source field `type` is called `imgType` here (`type` is reserved in Lean). -/
structure UserQuery where
  src : Option JStr := none
  format : Option JStr := none
  width : Option Int := none
  height : Option Int := none
  quality : Option Int := none
  folder : Option JStr := none
  imgType : Option JStr := none
  userId : Option JStr := none
deriving DecidableEq, Repr

/-- Output of `userDataSchema.parse`.  The zod pipeline on `quality` ends in
`.default(80)`, so its output is always a number; it is kept as an `Option`
here so that the `?? bounds.defaultQuality` in renders.ts can be translated
literally (the parser below always produces `some`). -/
structure ParsedUserData where
  src : JStr
  format : Option JStr
  width : Option Int
  height : Option Int
  quality : Option Int
  folder : JStr
  imgType : ImageType
  userId : Option JStr
deriving DecidableEq, Repr

/-- The width/height pipeline of `userDataSchema` (src/schema.ts:24-51):
optional, coerced by `Number(...)`, then `.int().min(50).max(4000)`; an
out-of-range value is a validation error (`none`), an absent one passes
through as `some none`. -/
def schemaDim (v : Option Int) : Option (Option Int) :=
  match v with
  | none => some none
  | some n => if 50 ≤ n ∧ n ≤ 4000 then some (some n) else none

/-- The `src` field pipeline (src/schema.ts:9-13):
`.min(1).optional().default("/placeholder/noimage.jpg")` — absent defaults,
present-but-empty is a validation error. -/
def schemaSrc (v : Option JStr) : Option JStr :=
  match v with
  | none => some (js "/placeholder/noimage.jpg")
  | some s => if s = [] then none else some s

/-- The `format` transform (src/schema.ts:14-23): lower-case; an
unrecognized value becomes `undefined` (not an error). -/
def schemaFormat (v : Option JStr) : Option JStr :=
  match v with
  | none => none
  | some f => if allowedFormats.contains (lowerStr f) then some (lowerStr f) else none

/-- The `quality` pipeline (src/schema.ts:52-58):
`.int().min(1).max(100).default(80)` — its zod output is always a number. -/
def schemaQuality (v : Option Int) : Option Int :=
  match v with
  | none => some 80
  | some q => if 1 ≤ q ∧ q ≤ 100 then some q else none

/-- The `folder` enum (src/schema.ts:59) with default `public`. -/
def schemaFolder (v : Option JStr) : Option JStr :=
  match v with
  | none => some (js "public")
  | some s => if s = js "public" || s = js "private" then some s else none

/-- The `type` enum (src/schema.ts:60) with default `normal`. -/
def schemaType (v : Option JStr) : Option ImageType :=
  match v with
  | none => some ImageType.normal
  | some s =>
    if s = js "avatar" then some ImageType.avatar
    else if s = js "normal" then some ImageType.normal
    else none

/-- The `userId` pipeline (src/schema.ts:61-73): coerce to string, trim,
require length 1..128 when present. -/
def schemaUserId (v : Option JStr) : Option (Option JStr) :=
  match v with
  | none => some none
  | some s =>
    let t := jsTrim s
    if 1 ≤ t.length ∧ t.length ≤ 128 then some (some t) else none

/-- Model of `userDataSchema.parse` (src/schema.ts:7-75): each field's
pipeline runs, and any field failure is the `ZodError` throw (`none`). -/
def parseUserData (q : UserQuery) : Option ParsedUserData := do
  let src ← schemaSrc q.src
  let width ← schemaDim q.width
  let height ← schemaDim q.height
  let quality ← schemaQuality q.quality
  let folder ← schemaFolder q.folder
  let imgType ← schemaType q.imgType
  let userId ← schemaUserId q.userId
  pure { src, format := schemaFormat q.format, width, height, quality := some quality
         folder, imgType, userId }

/-- The dimension and quality bounds extracted from the parsed options and
handed to `renderUserData` by `serveImage` (src/pixel.ts:42-48). -/
structure Bounds where
  minWidth : Int
  maxWidth : Int
  minHeight : Int
  maxHeight : Int
  defaultQuality : Int
deriving DecidableEq, Repr

/-- The `clamp` helper of `renderUserData` (src/renders.ts:64-67):
`Math.min(Math.max(value, min), max)`, passing `undefined` through. -/
def clampVal (value : Option Int) (lo hi : Int) : Option Int :=
  match value with
  | none => none
  | some v => some (min (max v lo) hi)

/-- Output of `renderUserData`: the parsed data with dimensions clamped to
the configured bounds and `format`/`quality` defaults applied. -/
structure RenderedUserData where
  src : JStr
  format : JStr
  width : Option Int
  height : Option Int
  quality : Int
  folder : JStr
  imgType : ImageType
  userId : Option JStr
deriving DecidableEq, Repr

/-- Model of `renderUserData` (src/renders.ts:52-76).  `none` models the
schema throw.  `quality := parsed.quality ?? bounds.defaultQuality` is
translated literally with `getD`; because the schema itself defaults
`quality` to `80`, the left operand is always defined. -/
def renderUserData (q : UserQuery) (bounds : Bounds) : Option RenderedUserData :=
  (parseUserData q).map (fun parsed =>
    { src := parsed.src
      format := parsed.format.getD (js "jpeg")
      width := clampVal parsed.width bounds.minWidth bounds.maxWidth
      height := clampVal parsed.height bounds.minHeight bounds.maxHeight
      quality := parsed.quality.getD bounds.defaultQuality
      folder := parsed.folder
      imgType := parsed.imgType
      userId := parsed.userId })

/-- The raw configuration object handed to `optionsSchema`
(src/schema.ts:77-103).  `idHandler` and `getUserFolder` are functions in
the source; only their presence matters to the handler's control flow, so
they are modelled as presence flags (the `z.custom` call rejects supplied
non-functions, which is not exercised by any claim).  `apiRegex` is an
anchored literal-prefix pattern (see `apiPrefixDefault`). -/
structure OptionsInput where
  baseDir : Option JStr := none
  hasIdHandler : Bool := false
  hasGetUserFolder : Bool := false
  websiteURL : Option JStr := none
  apiRegex : Option JStr := none
  allowedNetworkList : Option (List JStr) := none
  cacheControl : Option JStr := none
  etag : Option Bool := none
  minWidth : Option Int := none
  maxWidth : Option Int := none
  minHeight : Option Int := none
  maxHeight : Option Int := none
  defaultQuality : Option Int := none
  requestTimeoutMs : Option Int := none
  maxDownloadBytes : Option Int := none
deriving Repr

/-- Output of `optionsSchema.parse` with all defaults applied. -/
structure ParsedOptions where
  baseDir : JStr
  hasGetUserFolder : Bool
  websiteURL : Option JStr
  apiPrefix : JStr
  allowedNetworkList : List JStr
  cacheControl : Option JStr
  etag : Bool
  minWidth : Int
  maxWidth : Int
  minHeight : Int
  maxHeight : Int
  defaultQuality : Int
  requestTimeoutMs : Int
  maxDownloadBytes : Int
deriving DecidableEq, Repr

/-- A `z.number().int().positive().default(d)` field. -/
def posField (v : Option Int) (dflt : Int) : Option Int :=
  match v with
  | none => some dflt
  | some n => if 0 < n then some n else none

/-- The bare-hostname branch `/^[\w.-]+$/` of the `websiteURL` union.  The
`z.url()` branch of the union (full URLs) is not modelled; no claim
exercises it, and every configuration used below supplies a bare hostname
or nothing. -/
def hostShape (s : JStr) : Bool :=
  !s.isEmpty && s.all (fun c => c.isAlphanum || c = '_' || c = '.' || c = '-')

/-- Model of `optionsSchema.parse` (src/schema.ts:77-103): `baseDir`
required nonempty, numeric bounds positive integers with the documented
defaults, `defaultQuality` in 1..100, `etag` defaulting to `true`,
`allowedNetworkList` defaulting to `[]`, `apiRegex` defaulting to
`API_REGEX`.  The schema performs no cross-field comparison of
`minWidth`/`maxWidth` or `minHeight`/`maxHeight`. -/
def optionsSchemaParse (i : OptionsInput) : Option ParsedOptions := do
  let baseDir ← match i.baseDir with
    | none => none
    | some b => if b = [] then none else some b
  let websiteURL ← match i.websiteURL with
    | none => some none
    | some w => if hostShape w then some (some w) else none
  let minWidth ← posField i.minWidth 50
  let maxWidth ← posField i.maxWidth 4000
  let minHeight ← posField i.minHeight 50
  let maxHeight ← posField i.maxHeight 4000
  let defaultQuality ← match i.defaultQuality with
    | none => some (80 : Int)
    | some v => if 1 ≤ v ∧ v ≤ 100 then some v else none
  let requestTimeoutMs ← posField i.requestTimeoutMs 5000
  let maxDownloadBytes ← posField i.maxDownloadBytes 5000000
  pure { baseDir
         hasGetUserFolder := i.hasGetUserFolder
         websiteURL
         apiPrefix := i.apiRegex.getD apiPrefixDefault
         allowedNetworkList := i.allowedNetworkList.getD []
         cacheControl := i.cacheControl
         etag := i.etag.getD true
         minWidth, maxWidth, minHeight, maxHeight, defaultQuality
         requestTimeoutMs, maxDownloadBytes }

/-- Behaviour of the configured `getUserFolder` promise for one request:
it either eventually settles with a directory string, or never settles. -/
inductive FolderOutcome where
  | settles (dir : JStr)
  | pending
deriving DecidableEq, Repr

/-- The parts of the Express request that `serveImage` consults: the parsed
query and the `If-None-Match` header. -/
structure ReqModel where
  query : UserQuery
  ifNoneMatch : Option JStr := none
deriving DecidableEq, Repr

/-- The response assembled by `serveImage`.  A `304` carries no body and no
further headers (the conditional check precedes all header writes). -/
structure RespModel where
  status : Nat
  contentType : Option JStr
  contentDisposition : Option JStr
  cacheControl : Option JStr
  etag : Option JStr
  contentLength : Option Nat
  body : Bytes
deriving DecidableEq, Repr

/-- Outcome of one request: a response, a propagated fatal error
(`next(fallbackError)` after the fallback itself failed), or no response at
all (the handler suspended on an `await` that never settles). -/
inductive Outcome where
  | resp (r : RespModel)
  | fatal
  | hang
deriving DecidableEq, Repr

/-- The status of the outcome, when a response was produced. -/
def respStatus : Outcome → Option Nat
  | .resp r => some r.status
  | _ => none

/-- The body of the outcome, when a response was produced. -/
def respBody : Outcome → Option Bytes
  | .resp r => some r.body
  | _ => none

/-- The Content-Disposition header of the outcome, when present. -/
def respCD : Outcome → Option JStr
  | .resp r => r.contentDisposition
  | _ => none

/-- The bounds record `serveImage` builds from the parsed options
(src/pixel.ts:42-48). -/
def boundsOf (opts : ParsedOptions) : Bounds :=
  { minWidth := opts.minWidth, maxWidth := opts.maxWidth
    minHeight := opts.minHeight, maxHeight := opts.maxHeight
    defaultQuality := opts.defaultQuality }

/-- The base-directory step of `serveImage` (src/pixel.ts:59-64): for a
private-visibility request with a configured `getUserFolder`, the code
performs `const dir = await parsedOptions.getUserFolder(req, parsedUserId)`
with no timeout or race of any kind; a promise that never settles therefore
suspends the handler forever (`none`).  A settled falsy (empty) directory
leaves the default base directory in place. -/
def baseDirStep (opts : ParsedOptions) (ud : RenderedUserData)
    (fo : FolderOutcome) : Option JStr :=
  if ud.folder = js "private" ∧ opts.hasGetUserFolder then
    match fo with
    | .pending => none
    | .settles dir => some (if dir ≠ [] then dir else opts.baseDir)
  else some opts.baseDir

/-- The output-format selection of `serveImage` (src/pixel.ts:66-70). -/
def outputFormatOf (ud : RenderedUserData) : JStr :=
  if allowedFormats.contains (lowerStr ud.format) then ud.format else js "jpeg"

/-- Model of the `resolveBuffer` closure of `serveImage`
(src/pixel.ts:72-91): empty source → category fallback; a source merely
starting with the characters `http` → `fetchImage`; anything else → local
read (without a size cap). -/
def resolveBuffer (env : Env) (opts : ParsedOptions) (baseDir : JStr)
    (ud : RenderedUserData) : Option Bytes × List Effect :=
  if ud.src.isEmpty then (env.fallback ud.imgType, [])
  else if (js "http").isPrefixOf ud.src then
    fetchImage env ud.src baseDir opts.websiteURL ud.imgType opts.apiPrefix
      opts.allowedNetworkList opts.requestTimeoutMs opts.maxDownloadBytes
  else readLocalImage env ud.src baseDir ud.imgType none

/-- Extension-aware split of a base name, modelling `path.extname`: the
last `.` of the base name starts the extension unless it is the leading
character.  The first component is what
`path.basename(src, path.extname(src))` returns. -/
def splitExt (b : JStr) : JStr × JStr :=
  let tl := b.reverse.takeWhile (fun c => c ≠ '.')
  if tl.length + 1 ≤ b.length then
    let idx := b.length - tl.length - 1
    if idx = 0 then (b, []) else (b.take idx, b.drop idx)
  else (b, [])

/-- Model of posix `path.basename`: trailing separators are ignored and the
part after the last remaining separator is returned. -/
def baseNameOf (s : JStr) : JStr :=
  let t := (s.reverse.dropWhile (fun c => c = sepChar)).reverse
  (t.reverse.takeWhile (fun c => c ≠ sepChar)).reverse

/-- The Content-Disposition file name built by `serveImage`
(src/pixel.ts:113-116): the source's base name with the extension replaced
by the output format.  No character of the name is altered or escaped. -/
def fileNameOf (ud : RenderedUserData) : JStr :=
  let sourceName := if ud.src.isEmpty then js "image" else (splitExt (baseNameOf ud.src)).1
  sourceName ++ '.' :: outputFormatOf ud

/-- The Content-Disposition header value `inline; filename="<name>"`
(src/pixel.ts:128-131), with the file name interpolated verbatim. -/
def cdValueOf (name : JStr) : JStr :=
  js "inline; filename=\"" ++ name ++ ['"']

/-- The default Cache-Control directive (src/pixel.ts:132-136). -/
def defaultCacheControl : JStr :=
  js "public, max-age=86400, stale-while-revalidate=604800"

/-- The transform options `serveImage` passes to sharp
(src/pixel.ts:96-111). -/
def transformOptsOf (ud : RenderedUserData) (fmt : JStr) : TransformOpts :=
  { resize := ud.width.isSome || ud.height.isSome
    width := ud.width, height := ud.height
    format := fmt, quality := ud.quality }

/-- The outer catch block of `serveImage` (src/pixel.ts:143-153): it loads
`FALLBACKIMAGES.normal()` — the `normal` category unconditionally — with
jpeg content type, the fixed file name `fallback.jpeg` and a short
Cache-Control; if that load itself fails, the error goes to `next`. -/
def fallbackResponse (env : Env) : Outcome :=
  match env.fallback .normal with
  | some fb =>
    .resp { status := 200
            contentType := some (js "image/jpeg")
            contentDisposition := some (cdValueOf (js "fallback.jpeg"))
            cacheControl := some (js "public, max-age=60")
            etag := none
            contentLength := none
            body := fb }
  | none => .fatal

/-- The header computation and send of `serveImage` (src/pixel.ts:113-141):
ETag as the quoted sha1 of the processed bytes when enabled, a 304
short-circuit when `If-None-Match` equals it, otherwise a 200 with
content type, Content-Disposition, Cache-Control, ETag and
Content-Length. -/
def respond (env : Env) (opts : ParsedOptions) (req : ReqModel)
    (ud : RenderedUserData) (processed : Bytes) : Outcome :=
  let etagVal : Option JStr :=
    if opts.etag then some ('"' :: (env.hashHex processed ++ ['"'])) else none
  if etagVal.isSome && req.ifNoneMatch == etagVal then
    .resp { status := 304, contentType := none, contentDisposition := none
            cacheControl := none, etag := none, contentLength := none, body := [] }
  else
    .resp { status := 200
            contentType := some (mimeOf (outputFormatOf ud))
            contentDisposition := some (cdValueOf (fileNameOf ud))
            cacheControl := some (opts.cacheControl.getD defaultCacheControl)
            etag := etagVal
            contentLength := some processed.length
            body := processed }

/-- Model of `serveImage` (src/pixel.ts:34-154): parameter validation
(a `ZodError` lands in the catch block), the base-directory step, source
resolution, the sharp transform — applied to whatever bytes resolution
produced, fallback bytes included — and response assembly.  Any rejection
inside the `try` (validation, a failed fallback read during resolution, a
codec failure) routes to the catch block's fallback response. -/
def serveImageModel (env : Env) (opts : ParsedOptions) (req : ReqModel)
    (fo : FolderOutcome) : Outcome :=
  match renderUserData req.query (boundsOf opts) with
  | none => fallbackResponse env
  | some ud =>
    match baseDirStep opts ud fo with
    | none => .hang
    | some baseDir =>
      match (resolveBuffer env opts baseDir ud).1 with
      | none => fallbackResponse env
      | some imageBuffer =>
        match env.transform imageBuffer (transformOptsOf ud (outputFormatOf ud)) with
        | none => fallbackResponse env
        | some processed => respond env opts req ud processed

/-- The resolution-failure conditions enumerated by the specification's
fallback-totality property, phrased over the model: empty source,
disallowed remote host, network-level failure (timeout / non-2xx /
transport error / oversized payload — all of which reject the `axios.get`
promise), unacceptable content type, and a source that lands on the local
read path and fails path validation. -/
def resolutionFailureCase (env : Env) (opts : ParsedOptions) (baseDir : JStr)
    (ud : RenderedUserData) : Prop :=
  ud.src = []
  ∨ (∃ url, (js "http").isPrefixOf ud.src = true ∧ env.parseURL ud.src = some url ∧
      isInternalHost opts.websiteURL url.hostname = false ∧
      opts.allowedNetworkList.contains url.hostname = false ∧
      opts.allowedNetworkList.contains url.host = false)
  ∨ (∃ url, (js "http").isPrefixOf ud.src = true ∧ env.parseURL ud.src = some url ∧
      isInternalHost opts.websiteURL url.hostname = false ∧
      (opts.allowedNetworkList.contains url.hostname = true
        ∨ opts.allowedNetworkList.contains url.host = true) ∧
      (url.protocol = js "http:" ∨ url.protocol = js "https:") ∧
      env.net ud.src opts.requestTimeoutMs opts.maxDownloadBytes = none)
  ∨ (∃ url resp, (js "http").isPrefixOf ud.src = true ∧ env.parseURL ud.src = some url ∧
      isInternalHost opts.websiteURL url.hostname = false ∧
      (opts.allowedNetworkList.contains url.hostname = true
        ∨ opts.allowedNetworkList.contains url.host = true) ∧
      (url.protocol = js "http:" ∨ url.protocol = js "https:") ∧
      env.net ud.src opts.requestTimeoutMs opts.maxDownloadBytes = some resp ∧
      acceptableContentType resp.contentType = false)
  ∨ (((js "http").isPrefixOf ud.src = false ∨ env.parseURL ud.src = none) ∧ ud.src ≠ [] ∧
      isValidPath env.fs baseDir ud.src = false)

/-! Concrete instances used by counterexamples and witnesses. -/

/-- A filesystem on which nothing exists. -/
def trivFs : FSModel :=
  { cwd := [], realpath := fun _ => none, isDir := fun _ => false
    readFile := fun _ => none, statSize := fun _ => none }

/-- A representative parsed configuration (ETag disabled so conditional
handling does not interfere with body comparisons). -/
def stdOpts : ParsedOptions :=
  { baseDir := js "/pub", hasGetUserFolder := false
    websiteURL := some (js "site.test"), apiPrefix := apiPrefixDefault
    allowedNetworkList := [js "allowed.test"], cacheControl := none
    etag := false, minWidth := 50, maxWidth := 4000, minHeight := 50
    maxHeight := 4000, defaultQuality := 80, requestTimeoutMs := 5000
    maxDownloadBytes := 5000000 }

/-- Fallback assets: distinct bytes per category. -/
def stdFallback : ImageType → Option Bytes
  | .normal => some [1, 2]
  | .avatar => some [5, 6]

/-- URL parser behaviour (as `new URL` exhibits on these inputs):
`http://blocked.test/i.jpg` parses with host `blocked.test`. -/
def blockedParse (s : JStr) : Option URLRec :=
  if s = js "http://blocked.test/i.jpg" then
    some ⟨js "http:", js "blocked.test", js "blocked.test", js "/i.jpg"⟩
  else none

/-- Environment for the disallowed-host scenarios: no reachable files, a
codec that appends a marker byte (so transformed bytes are observably
different from their input). -/
def blockedEnv : Env :=
  { fs := trivFs, parseURL := blockedParse, net := fun _ _ _ => none
    fallback := stdFallback, transform := fun b _ => some (b ++ [9])
    hashHex := fun _ => [] }

/-- Request for a remote image on a host absent from the allow-list. -/
def blockedReq : ReqModel := { query := { src := some (js "http://blocked.test/i.jpg") } }

/-- The rendered user data `blockedReq` produces. -/
def blockedUD : RenderedUserData :=
  { src := js "http://blocked.test/i.jpg", format := js "jpeg", width := none
    height := none, quality := 80, folder := js "public", imgType := .normal
    userId := none }

/-- Request whose source name contains double quotes. -/
def quotesReq : ReqModel := { query := { src := some (js "image\"with\"quotes.jpg") } }

/-- Environment whose codec always fails. -/
def failCodecEnv : Env := { blockedEnv with transform := fun _ _ => none }

/-- An avatar-category request for a local file. -/
def avatarReq : ReqModel :=
  { query := { src := some (js "x.jpg"), imgType := some (js "avatar") } }

/-- Configuration with a folder resolver registered. -/
def resolverOpts : ParsedOptions := { stdOpts with hasGetUserFolder := true }

/-- A private-visibility request. -/
def privateReq : ReqModel :=
  { query := { src := some (js "x.jpg"), folder := some (js "private")
               userId := some (js "123") } }

/-- URL parser behaviour on `ftp://evil.test/x`: a well-formed absolute URL
with scheme `ftp:`. -/
def ftpParse (s : JStr) : Option URLRec :=
  if s = js "ftp://evil.test/x" then
    some ⟨js "ftp:", js "evil.test", js "evil.test", js "/x"⟩
  else none

/-- Environment for the `ftp://` classification scenario. -/
def ftpEnv : Env := { blockedEnv with parseURL := ftpParse }

/-- Rendered user data whose source is the `ftp://` URL. -/
def ftpUD : RenderedUserData :=
  { src := js "ftp://evil.test/x", format := js "jpeg", width := none, height := none
    quality := 80, folder := js "public", imgType := .normal, userId := none }

/-- Rendered user data for a plain local source (parses as no URL). -/
def localUD : RenderedUserData :=
  { src := js "x.jpg", format := js "jpeg", width := none, height := none
    quality := 80, folder := js "public", imgType := .normal, userId := none }

/-- Filesystem for the C1 counterexample: the directory `/base` contains an
entry literally named `..f` (no symlinks: `realpath` is the identity on the
existing paths). -/
def dotBaseFs : FSModel :=
  { cwd := []
    realpath := fun p =>
      if p = [js "base"] then some [js "base"]
      else if p = [js "base", js "..f"] then some [js "base", js "..f"]
      else none
    isDir := fun p => p = [js "base"]
    readFile := fun _ => none, statSize := fun _ => none }

/-- Filesystem for the C1 witness: `/base` contains `img.jpg`. -/
def imgBaseFs : FSModel :=
  { cwd := []
    realpath := fun p =>
      if p = [js "base"] then some [js "base"]
      else if p = [js "base", js "img.jpg"] then some [js "base", js "img.jpg"]
      else none
    isDir := fun p => p = [js "base"]
    readFile := fun _ => none, statSize := fun _ => none }

/-- A configuration input with inverted width bounds. -/
def invertedBoundsInput : OptionsInput :=
  { baseDir := some (js "/images"), minWidth := some 5000, maxWidth := some 100 }

/-- The configuration `optionsSchema` produces for `invertedBoundsInput`. -/
def invertedBoundsCfg : ParsedOptions :=
  { baseDir := js "/images", hasGetUserFolder := false, websiteURL := none
    apiPrefix := apiPrefixDefault, allowedNetworkList := [], cacheControl := none
    etag := true, minWidth := 5000, maxWidth := 100, minHeight := 50
    maxHeight := 4000, defaultQuality := 80, requestTimeoutMs := 5000
    maxDownloadBytes := 5000000 }

/-- Bounds whose configured default quality is 50 (not the schema's 80). -/
def quality50Bounds : Bounds := ⟨50, 4000, 50, 4000, 50⟩

/-- The empty query (no parameter supplied). -/
def emptyQuery : UserQuery := {}

/-- What `renderUserData` produces for the empty query. -/
def emptyQueryRendered : RenderedUserData :=
  { src := js "/placeholder/noimage.jpg", format := js "jpeg", width := none
    height := none, quality := 80, folder := js "public", imgType := .normal
    userId := none }

/-- Query for the clamping witness: width 70 and height 1000 against bounds
[100, 500]. -/
def clampQuery : UserQuery := { width := some 70, height := some 1000 }

/-- Bounds [100, 500] for both dimensions. -/
def clampBounds : Bounds := ⟨100, 500, 100, 500, 80⟩

/-- The rendered result of `clampQuery` under `clampBounds`. -/
def clampRendered : RenderedUserData :=
  { src := js "/placeholder/noimage.jpg", format := js "jpeg", width := some 100
    height := some 500, quality := 80, folder := js "public", imgType := .normal
    userId := none }

/-- URL parser behaviour on an internal URL whose path does not carry the
routing prefix. -/
def internalOtherParse (s : JStr) : Option URLRec :=
  if s = js "http://site.test/other/i.jpg" then
    some ⟨js "http:", js "site.test", js "site.test", js "/other/i.jpg"⟩
  else none

/-- Environment for the internal-reference witness. -/
def internalOtherEnv : Env := { blockedEnv with parseURL := internalOtherParse }

/-! Helper lemmas about the rendered string forms of canonical paths. -/

theorem isPrefixOf_eq_true_iff (l1 l2 : JStr) : l1.isPrefixOf l2 = true ↔ l1 <+: l2 :=
  List.isPrefixOf_iff_prefix

theorem joinAbs_ne_nil_eq (segs : List JStr) (h : segs ≠ []) :
    joinAbs segs = segs.flatMap (fun s => sepChar :: s) := by
  simp [joinAbs, h]

theorem flatMap_sep_head (segs : List JStr) :
    (segs.flatMap (fun s => sepChar :: s) ++ [sepChar]).head? = some sepChar := by
  cases segs with
  | nil => rfl
  | cons s rest => simp [List.flatMap_cons]

theorem sep_append_prefix_iff (x : JStr) (u v : JStr) : ∀ y : JStr, sepChar ∉ x → sepChar ∉ y →
    u.head? = some sepChar → v.head? = some sepChar →
    (x ++ u <+: y ++ v ↔ x = y ∧ u <+: v) := by
  induction x with
  | nil =>
    intro y _ hy hu _
    cases y with
    | nil => simp
    | cons c ys =>
      simp only [List.nil_append, List.cons_append]
      constructor
      · intro h
        cases u with
        | nil => cases hu
        | cons a us =>
          have ha : a = sepChar := by simpa using hu
          have hac := (List.cons_prefix_cons.mp h).1
          have hc : c = sepChar := hac.symm.trans ha
          exact (hy (by rw [hc]; exact List.mem_cons_self sepChar ys)).elim
      · rintro ⟨h, -⟩
        cases h
  | cons a xs ih =>
    intro y hx hy hu hv
    have hxa : a ≠ sepChar := fun h => hx (h ▸ List.mem_cons_self a xs)
    have hxs : sepChar ∉ xs := fun h => hx (List.mem_cons_of_mem a h)
    cases y with
    | nil =>
      simp only [List.nil_append, List.cons_append]
      constructor
      · intro h
        cases v with
        | nil => cases hv
        | cons b vs =>
          have hb : b = sepChar := by simpa using hv
          have hab := (List.cons_prefix_cons.mp h).1
          exact absurd (hab.trans hb) hxa
      · rintro ⟨h, -⟩
        cases h
    | cons c ys =>
      have hys : sepChar ∉ ys := fun h => hy (List.mem_cons_of_mem c h)
      simp only [List.cons_append, List.cons_prefix_cons]
      rw [ih ys hxs hys hu hv]
      constructor
      · rintro ⟨h1, h2, h3⟩
        exact ⟨by rw [h1, h2], h3⟩
      · rintro ⟨h1, h2⟩
        obtain ⟨rfl, rfl⟩ := List.cons.injEq a xs c ys ▸ h1
        exact ⟨rfl, rfl, h2⟩

theorem flat_sep_prefix_iff (b : List JStr) : ∀ p : List JStr, canonPath b → canonPath p →
    ((b.flatMap (fun s => sepChar :: s) ++ [sepChar]
      <+: p.flatMap (fun s => sepChar :: s) ++ [sepChar]) ↔ b <+: p) := by
  induction b with
  | nil =>
    intro p _ _
    simp only [List.flatMap_nil, List.nil_append]
    constructor
    · intro _
      exact List.nil_prefix
    · intro _
      have h := flatMap_sep_head p
      cases hX : p.flatMap (fun s => sepChar :: s) ++ [sepChar] with
      | nil => rw [hX] at h; cases h
      | cons a t =>
        rw [hX] at h
        have : a = sepChar := by simpa using h
        rw [this]
        exact ⟨t, rfl⟩
  | cons x xs ih =>
    intro p hb hp
    have hbx : canonSeg x := hb x (List.mem_cons_self x xs)
    have hbxs : canonPath xs := fun s hs => hb s (List.mem_cons_of_mem x hs)
    cases p with
    | nil =>
      simp only [List.flatMap_cons, List.flatMap_nil, List.nil_append]
      constructor
      · intro h
        have hlen := h.length_le
        simp only [List.append_assoc, List.length_append, List.length_cons,
          List.length_singleton] at hlen
        omega
      · intro h
        exact absurd h (by simp)
    | cons y ys =>
      have hpy : canonSeg y := hp y (List.mem_cons_self y ys)
      have hpys : canonPath ys := fun s hs => hp s (List.mem_cons_of_mem y hs)
      rw [List.flatMap_cons, List.flatMap_cons, List.append_assoc, List.append_assoc,
        List.cons_append, List.cons_append, List.cons_prefix_cons]
      rw [sep_append_prefix_iff x _ _ y hbx.2 hpy.2 (flatMap_sep_head xs) (flatMap_sep_head ys)]
      rw [ih ys hbxs hpys, List.cons_prefix_cons]
      tauto

theorem inside_check_true (rb rp : List JStr) (hb : canonPath rb) (hp : canonPath rp)
    (hne : rb ≠ []) (hpre : rb <+: rp) :
    ((joinAbs rb ++ [sepChar]).isPrefixOf (joinAbs rp ++ [sepChar]) || rp == rb) = true := by
  have hrp : rp ≠ [] := by
    intro h
    exact hne (List.prefix_nil.mp (h ▸ hpre))
  rw [joinAbs_ne_nil_eq rb hne, joinAbs_ne_nil_eq rp hrp]
  have h := (flat_sep_prefix_iff rb rp hb hp).mpr hpre
  simp [isPrefixOf_eq_true_iff, h]

theorem inside_check_false (rb rp : List JStr) (hb : canonPath rb) (hp : canonPath rp)
    (hnpre : ¬ rb <+: rp) :
    ((joinAbs rb ++ [sepChar]).isPrefixOf (joinAbs rp ++ [sepChar]) || rp == rb) = false := by
  have hne : rb ≠ [] := fun h => hnpre (h ▸ List.nil_prefix)
  have hneq : rp ≠ rb := fun h => hnpre (h ▸ List.prefix_refl rb)
  rw [Bool.or_eq_false_iff]
  refine ⟨?_, by simpa using hneq⟩
  by_cases hrp : rp = []
  · subst hrp
    rw [joinAbs_ne_nil_eq rb hne]
    rw [Bool.eq_false_iff]
    intro hcontra
    have h := (isPrefixOf_eq_true_iff _ _ |>.mp hcontra).length_le
    obtain ⟨x, xs, rfl⟩ : ∃ x xs, rb = x :: xs := by
      cases rb with
      | nil => exact absurd rfl hne
      | cons x xs => exact ⟨x, xs, rfl⟩
    have hx : x ≠ [] := (hb x (List.mem_cons_self x xs)).1
    obtain ⟨c, cs, rfl⟩ : ∃ c cs, x = c :: cs := by
      cases x with
      | nil => exact absurd rfl hx
      | cons c cs => exact ⟨c, cs, rfl⟩
    simp [List.flatMap_cons, joinAbs, List.length_append] at h
  · rw [joinAbs_ne_nil_eq rb hne, joinAbs_ne_nil_eq rp hrp]
    rw [Bool.eq_false_iff]
    intro hcontra
    exact hnpre ((flat_sep_prefix_iff rb rp hb hp).mp (isPrefixOf_eq_true_iff _ _ |>.mp hcontra))

theorem commonLen_eq_length (b : List JStr) : ∀ p : List JStr, b <+: p →
    commonLen b p = b.length := by
  induction b with
  | nil =>
    intro p _
    cases p <;> rfl
  | cons x xs ih =>
    intro p h
    obtain ⟨t, rfl⟩ := h
    rw [List.cons_append]
    simp only [commonLen, List.length_cons]
    rw [ih (xs ++ t) ⟨t, rfl⟩]
    simp

theorem relString_drop_eq (b p : List JStr) (h : b <+: p) :
    relString b p = List.intercalate [sepChar] (p.drop b.length) := by
  unfold relString relSegs
  rw [commonLen_eq_length b p h, Nat.sub_self]
  simp

theorem intercalate_cons_eq (s : JStr) (rest : List JStr) :
    List.intercalate [sepChar] (s :: rest)
      = s ++ (if rest.isEmpty then [] else sepChar :: List.intercalate [sepChar] rest) := by
  cases rest with
  | nil => simp [List.intercalate, List.intersperse]
  | cons t r => simp [List.intercalate, List.intersperse]

theorem join_tail_head (rest : List JStr) :
    (if rest.isEmpty then ([] : JStr) else sepChar :: List.intercalate [sepChar] rest) = []
    ∨ (if rest.isEmpty then ([] : JStr) else
        sepChar :: List.intercalate [sepChar] rest).head? = some sepChar := by
  cases rest with
  | nil => exact Or.inl rfl
  | cons t r => exact Or.inr rfl

theorem dotdot_not_prefix_join (dropped : List JStr) (hcanon : ∀ s ∈ dropped, canonSeg s)
    (hdd : noDotDotHead dropped) :
    (['.', '.'].isPrefixOf (List.intercalate [sepChar] dropped)) = false := by
  cases dropped with
  | nil => rfl
  | cons s rest =>
    rw [intercalate_cons_eq]
    have hs : canonSeg s := hcanon s (List.mem_cons_self s rest)
    have hdds : ¬ ['.', '.'] <+: s := hdd s rfl
    rw [Bool.eq_false_iff]
    intro hcontra
    have hpre := isPrefixOf_eq_true_iff _ _ |>.mp hcontra
    obtain ⟨c, s2, rfl⟩ : ∃ c s2, s = c :: s2 := by
      cases s with
      | nil => exact absurd rfl hs.1
      | cons c s2 => exact ⟨c, s2, rfl⟩
    rw [List.cons_append, List.cons_prefix_cons] at hpre
    obtain ⟨rfl, hpre2⟩ := hpre
    cases s2 with
    | nil =>
      rcases join_tail_head rest with hq | hq
      · rw [List.nil_append, hq] at hpre2
        exact absurd hpre2 (by simp)
      · rw [List.nil_append] at hpre2
        cases hX : (if rest.isEmpty then ([] : JStr) else
            sepChar :: List.intercalate [sepChar] rest) with
        | nil => rw [hX] at hpre2; exact absurd hpre2 (by simp)
        | cons a t =>
          rw [hX] at hq hpre2
          have ha : a = sepChar := by simpa using hq
          have := (List.cons_prefix_cons.mp hpre2).1
          rw [ha] at this
          exact absurd this (by decide)
    | cons d s3 =>
      rw [List.cons_append, List.cons_prefix_cons] at hpre2
      obtain ⟨rfl, -⟩ := hpre2
      exact hdds ⟨s3, rfl⟩

theorem join_not_absolute (dropped : List JStr) (hcanon : ∀ s ∈ dropped, canonSeg s) :
    pathIsAbsolute (List.intercalate [sepChar] dropped) = false := by
  cases dropped with
  | nil => rfl
  | cons s rest =>
    rw [intercalate_cons_eq]
    have hs : canonSeg s := hcanon s (List.mem_cons_self s rest)
    obtain ⟨c, s2, rfl⟩ : ∃ c s2, s = c :: s2 := by
      cases s with
      | nil => exact absurd rfl hs.1
      | cons c s2 => exact ⟨c, s2, rfl⟩
    have hc : c ≠ sepChar := fun h => hs.2 (h ▸ List.mem_cons_self c s2)
    simp [pathIsAbsolute, hc]

/-! Helper lemmas about `isValidPath` itself. -/

theorem isValidPath_false_empty (fs : FSModel) (b s : JStr) (h : b = [] ∨ s = []) :
    isValidPath fs b s = false := by
  unfold isValidPath
  split_ifs with h1 h2 h3 h4 <;> try rfl
  exfalso
  simp only [Bool.or_eq_true, decide_eq_true_eq] at h1
  exact h1 h

theorem isValidPath_false_ctrl (fs : FSModel) (b s : JStr) (h : ∃ c ∈ s, c.toNat < 32) :
    isValidPath fs b s = false := by
  unfold isValidPath
  split_ifs with h1 h2 h3 h4 <;> try rfl
  exfalso
  obtain ⟨c, hc, hlt⟩ := h
  simp at h4
  exact absurd hlt (by simpa using h4.2 c hc)

theorem isValidPath_false_absolute (fs : FSModel) (b s : JStr) (h : pathIsAbsolute s = true) :
    isValidPath fs b s = false := by
  unfold isValidPath
  split_ifs with h1 h2 <;> try rfl

theorem isValidPath_false_no_realbase (fs : FSModel) (b s : JStr)
    (h : fs.realpath (resolveAgainst fs.cwd b) = none) :
    isValidPath fs b s = false := by
  unfold isValidPath
  split_ifs with h1 h2 h3 h4 <;> try rfl
  simp only [h]

theorem isValidPath_false_notdir (fs : FSModel) (b s : JStr) (rb : List JStr)
    (hrb : fs.realpath (resolveAgainst fs.cwd b) = some rb)
    (hdir : fs.isDir rb = false) :
    isValidPath fs b s = false := by
  unfold isValidPath
  split_ifs with h1 h2 h3 h4 <;> try rfl
  simp only [hrb]
  cases fs.realpath (resolveAgainst (resolveAgainst fs.cwd b) s) <;> simp [hdir]

theorem isValidPath_false_outside (fs : FSModel) (b s : JStr)
    (hcanon : ∀ p q, fs.realpath p = some q → canonPath q)
    (rb rp : List JStr)
    (hrb : fs.realpath (resolveAgainst fs.cwd b) = some rb)
    (hrp : fs.realpath (resolveAgainst (resolveAgainst fs.cwd b) s) = some rp)
    (hout : ¬ rb <+: rp) :
    isValidPath fs b s = false := by
  unfold isValidPath
  split_ifs with h1 h2 h3 h4 <;> try rfl
  simp only [hrb, hrp]
  have hin := inside_check_false rb rp (hcanon _ _ hrb) (hcanon _ _ hrp) hout
  cases hdir : fs.isDir rb <;> simp [hdir, hin]

theorem isValidPath_true_within (fs : FSModel) (b s : JStr)
    (hcanon : ∀ p q, fs.realpath p = some q → canonPath q)
    (rb rp : List JStr)
    (hb : b ≠ []) (hs : s ≠ [])
    (hctrl : ∀ c ∈ s, ¬ c.toNat < 32)
    (habs : pathIsAbsolute s = false)
    (hrb : fs.realpath (resolveAgainst fs.cwd b) = some rb)
    (hrp : fs.realpath (resolveAgainst (resolveAgainst fs.cwd b) s) = some rp)
    (hdir : fs.isDir rb = true)
    (hrbne : rb ≠ [])
    (hpre : rb <+: rp)
    (hdd : noDotDotHead (rp.drop rb.length)) :
    isValidPath fs b s = true := by
  unfold isValidPath
  split_ifs with h1 h2 h3 h4
  · exfalso
    simp only [Bool.or_eq_true, decide_eq_true_eq] at h1
    tauto
  · exfalso
    have : (Char.ofNat 0) ∈ s := by simpa using h2
    exact hctrl _ this (by decide)
  · exact absurd h3 (by simp [habs])
  · exfalso
    simp only [Bool.not_eq_eq_eq_not, Bool.not_true, Bool.and_eq_false_imp] at h4
    have hall := h4 (by simpa using hs)
    obtain ⟨c, hc, hcc⟩ := List.all_eq_false.mp hall
    have hlt : c.toNat < 32 := by simpa using hcc
    exact absurd hlt (hctrl c hc)
  · simp only [hrb, hrp, hdir]
    have hcb := hcanon _ _ hrb
    have hcp := hcanon _ _ hrp
    have hin := inside_check_true rb rp hcb hcp hrbne hpre
    have hrel := relString_drop_eq rb rp hpre
    have hdd2 := dotdot_not_prefix_join (rp.drop rb.length)
      (fun t ht => hcp t (List.drop_subset _ _ ht)) hdd
    have habs2 := join_not_absolute (rp.drop rb.length)
      (fun t ht => hcp t (List.drop_subset _ _ ht))
    simp [hrel, hin, hdd2, habs2]

/-- C1 (amended): `isValidPath` never throws (the model is total), and
returns `false` whenever either argument is empty, the candidate contains a
NUL byte or any control character below 0x20, the candidate is an absolute
path, the canonical base does not exist or is not a directory, or the
canonicalized candidate resolves outside the canonical base; and it returns
`true` for every syntactically clean relative candidate that resolves
strictly within the (non-root) canonical base whose remainder's first
segment does not itself begin with the two characters `..`.  (The two added
provisos are forced by the source's textual `relative.startsWith("..")`
check and its `realBase + path.sep` prefix check; see the
counterexample.) -/
theorem c1_path_containment (fs : FSModel) (basePath specifiedPath : JStr)
    (hcanon : ∀ p q, fs.realpath p = some q → canonPath q) :
    ((basePath = [] ∨ specifiedPath = []) → isValidPath fs basePath specifiedPath = false)
  ∧ ((∃ c ∈ specifiedPath, c.toNat < 32) → isValidPath fs basePath specifiedPath = false)
  ∧ (pathIsAbsolute specifiedPath = true → isValidPath fs basePath specifiedPath = false)
  ∧ (fs.realpath (resolveAgainst fs.cwd basePath) = none →
      isValidPath fs basePath specifiedPath = false)
  ∧ (∀ realBase, fs.realpath (resolveAgainst fs.cwd basePath) = some realBase →
      fs.isDir realBase = false → isValidPath fs basePath specifiedPath = false)
  ∧ (∀ realBase realPath, fs.realpath (resolveAgainst fs.cwd basePath) = some realBase →
      fs.realpath (resolveAgainst (resolveAgainst fs.cwd basePath) specifiedPath)
        = some realPath →
      ¬ realBase <+: realPath → isValidPath fs basePath specifiedPath = false)
  ∧ (∀ realBase realPath, basePath ≠ [] → specifiedPath ≠ [] →
      (∀ c ∈ specifiedPath, ¬ c.toNat < 32) → pathIsAbsolute specifiedPath = false →
      fs.realpath (resolveAgainst fs.cwd basePath) = some realBase →
      fs.realpath (resolveAgainst (resolveAgainst fs.cwd basePath) specifiedPath)
        = some realPath →
      fs.isDir realBase = true → realBase ≠ [] →
      realBase <+: realPath → realBase ≠ realPath →
      noDotDotHead (realPath.drop realBase.length) →
      isValidPath fs basePath specifiedPath = true) := by
  refine ⟨isValidPath_false_empty fs _ _,
          isValidPath_false_ctrl fs _ _,
          isValidPath_false_absolute fs _ _,
          isValidPath_false_no_realbase fs _ _,
          fun rb hrb hdir => isValidPath_false_notdir fs _ _ rb hrb hdir,
          fun rb rp hrb hrp hout => isValidPath_false_outside fs _ _ hcanon rb rp hrb hrp hout,
          fun rb rp hb hs hctrl habs hrb hrp hdir hrbne hpre _ hdd =>
            isValidPath_true_within fs _ _ hcanon rb rp hb hs hctrl habs hrb hrp hdir
              hrbne hpre hdd⟩

/-- C1 counterexample: on a filesystem where the directory `/base` contains
an entry literally named `..f` (no symlinks anywhere), the canonical
candidate resolves strictly within the canonical base, yet `isValidPath`
returns `false`, because `path.relative` yields the string `..f` and the
source rejects any relative path that merely starts with the characters
`..`.  This refutes the claim's "returns true for every candidate that
resolves strictly within the base". -/
theorem c1_counterexample :
    dotBaseFs.realpath (resolveAgainst dotBaseFs.cwd (js "/base")) = some [js "base"]
  ∧ dotBaseFs.realpath
      (resolveAgainst (resolveAgainst dotBaseFs.cwd (js "/base")) (js "..f"))
      = some [js "base", js "..f"]
  ∧ [js "base"] <+: [js "base", js "..f"]
  ∧ [js "base"] ≠ [js "base", js "..f"]
  ∧ dotBaseFs.isDir [js "base"] = true
  ∧ (js "..f") ≠ []
  ∧ (∀ c ∈ (js "..f"), ¬ c.toNat < 32)
  ∧ pathIsAbsolute (js "..f") = false
  ∧ isValidPath dotBaseFs (js "/base") (js "..f") = false := by
  decide

/-- C1 witness: the amended theorem applied to a concrete filesystem where
`/base` contains `img.jpg`. -/
theorem c1_witness : isValidPath imgBaseFs (js "/base") (js "img.jpg") = true := by
  have hcanon : ∀ p q, imgBaseFs.realpath p = some q → canonPath q := by
    intro p q h
    simp only [imgBaseFs] at h
    split_ifs at h with h1 h2
    · cases h
      decide
    · cases h
      decide
  exact (c1_path_containment imgBaseFs (js "/base") (js "img.jpg") hcanon).2.2.2.2.2.2
    [js "base"] [js "base", js "img.jpg"] (by decide) (by decide) (by decide) (by decide)
    (by decide) (by decide) (by decide) (by decide) (by decide) (by decide)
    (fun t ht => by cases ht; decide)

/-! Helper lemmas about source resolution. -/

theorem readLocalImage_trace (env : Env) (fp bd : JStr) (t : ImageType) (mb : Option Int) :
    (readLocalImage env fp bd t mb).2 = [.localRead fp]
    ∨ (readLocalImage env fp bd t mb).2
        = [.localRead fp, .fileRead (jsResolve2 env.fs.cwd bd fp)] := by
  unfold readLocalImage
  split_ifs with hv
  · exact Or.inl rfl
  · cases mb with
    | none => exact Or.inr rfl
    | some m =>
      by_cases hm : m ≠ 0
      · cases hst : env.fs.statSize (jsResolve2 env.fs.cwd bd fp)
        · exact Or.inl (by simp [hm, hst])
        · rename_i sz
          by_cases hsz : (sz : Int) > m
          · exact Or.inl (by simp [hm, hst, hsz])
          · exact Or.inr (by simp [hm, hst, hsz])
      · exact Or.inr (by simp [hm])

theorem readLocalImage_localRead_mem (env : Env) (fp bd : JStr) (t : ImageType)
    (mb : Option Int) : Effect.localRead fp ∈ (readLocalImage env fp bd t mb).2 := by
  rcases readLocalImage_trace env fp bd t mb with h | h <;> rw [h] <;> simp

theorem readLocalImage_no_netGet (env : Env) (fp bd : JStr) (t : ImageType) (mb : Option Int)
    (u : JStr) : Effect.netGet u ∉ (readLocalImage env fp bd t mb).2 := by
  rcases readLocalImage_trace env fp bd t mb with h | h <;> rw [h] <;> simp

theorem readLocalImage_invalid (env : Env) (fp bd : JStr) (t : ImageType) (mb : Option Int)
    (hv : isValidPath env.fs bd fp = false) :
    readLocalImage env fp bd t mb = (env.fallback t, [.localRead fp]) := by
  simp [readLocalImage, hv]

theorem readLocalImage_fileRead_valid (env : Env) (fp bd : JStr) (t : ImageType)
    (mb : Option Int) (resolved : List JStr)
    (h : Effect.fileRead resolved ∈ (readLocalImage env fp bd t mb).2) :
    isValidPath env.fs bd fp = true := by
  by_cases hv : isValidPath env.fs bd fp = true
  · exact hv
  · exfalso
    rw [readLocalImage_invalid env fp bd t mb (by simpa using hv)] at h
    simp at h

theorem fetchFromNetwork_trace (env : Env) (src : JStr) (t : ImageType) (tm mb : Int) :
    (fetchFromNetwork env src t tm mb).2 = [.netGet src] := by
  unfold fetchFromNetwork
  cases hn : env.net src tm mb
  · rfl
  · simp only []
    split_ifs <;> rfl

theorem http_prefix_ne_nil (s : JStr) (h : (js "http").isPrefixOf s = true) :
    s.isEmpty = false := by
  cases s with
  | nil => exact absurd h (by decide)
  | cons c t => rfl

theorem resolveBuffer_fst_of_failure (env : Env) (opts : ParsedOptions) (baseDir : JStr)
    (ud : RenderedUserData) (h : resolutionFailureCase env opts baseDir ud) :
    (resolveBuffer env opts baseDir ud).1 = env.fallback ud.imgType := by
  rcases h with h | ⟨url, hpfx, hurl, hint, hh1, hh2⟩
    | ⟨url, hpfx, hurl, hint, hall, hproto, hnet⟩
    | ⟨url, resp, hpfx, hurl, hint, hall, hproto, hnet, hct⟩
    | ⟨hnp, hne, hiv⟩
  · simp [resolveBuffer, h]
  · have hh1m : url.hostname ∉ opts.allowedNetworkList := by simpa using hh1
    have hh2m : url.host ∉ opts.allowedNetworkList := by simpa using hh2
    simp [resolveBuffer, http_prefix_ne_nil _ hpfx, hpfx, fetchImage, hurl, hint, hh1m, hh2m]
  · have hor : ¬(url.hostname ∉ opts.allowedNetworkList ∧ url.host ∉ opts.allowedNetworkList) := by
      rcases hall with hc | hc
      · exact fun hcon => hcon.1 (by simpa using hc)
      · exact fun hcon => hcon.2 (by simpa using hc)
    have hpr : ¬(¬url.protocol = js "http:" ∧ ¬url.protocol = js "https:") := by tauto
    simp [resolveBuffer, http_prefix_ne_nil _ hpfx, hpfx, fetchImage, hurl, hint, hor, hpr,
      fetchFromNetwork, hnet]
  · have hor : ¬(url.hostname ∉ opts.allowedNetworkList ∧ url.host ∉ opts.allowedNetworkList) := by
      rcases hall with hc | hc
      · exact fun hcon => hcon.1 (by simpa using hc)
      · exact fun hcon => hcon.2 (by simpa using hc)
    have hpr : ¬(¬url.protocol = js "http:" ∧ ¬url.protocol = js "https:") := by tauto
    simp [resolveBuffer, http_prefix_ne_nil _ hpfx, hpfx, fetchImage, hurl, hint, hor, hpr,
      fetchFromNetwork, hnet, hct]
  · have hne2 : ud.src.isEmpty = false := by simpa [List.isEmpty_iff] using hne
    rcases hnp with hp | hp
    · rw [show resolveBuffer env opts baseDir ud
          = readLocalImage env ud.src baseDir ud.imgType none by
        simp [resolveBuffer, hne2, hp]]
      rw [readLocalImage_invalid env _ _ _ _ hiv]
    · by_cases hpfx : (js "http").isPrefixOf ud.src = true
      · rw [show resolveBuffer env opts baseDir ud
            = readLocalImage env ud.src baseDir ud.imgType (some opts.maxDownloadBytes) by
          simp [resolveBuffer, hne2, hpfx, fetchImage, hp]]
        rw [readLocalImage_invalid env _ _ _ _ hiv]
      · rw [show resolveBuffer env opts baseDir ud
            = readLocalImage env ud.src baseDir ud.imgType none by
          simp [resolveBuffer, hne2, hpfx]]
        rw [readLocalImage_invalid env _ _ _ _ hiv]

theorem respond_inm_none (env : Env) (opts : ParsedOptions) (req : ReqModel)
    (ud : RenderedUserData) (processed : Bytes) (h : req.ifNoneMatch = none) :
    respond env opts req ud processed
      = .resp { status := 200
                contentType := some (mimeOf (outputFormatOf ud))
                contentDisposition := some (cdValueOf (fileNameOf ud))
                cacheControl := some (opts.cacheControl.getD defaultCacheControl)
                etag := if opts.etag then some ('"' :: (env.hashHex processed ++ ['"'])) else none
                contentLength := some processed.length
                body := processed } := by
  unfold respond
  cases he : opts.etag <;> simp [h, he]

/-- C2 (amended): every resolution failure in the claim's set (invalid
source, disallowed remote host, network failure or oversized payload,
unacceptable content type) makes `resolveBuffer` deliver the category's
fallback bytes, and the handler responds 200 without raising — but the
response body is the sharp transform of those fallback bytes, not the
fallback bytes themselves; and on a transform failure the handler responds
200 with the bytes of the `normal` fallback (the request's category is not
consulted in the catch block; see C8). -/
theorem c2_fallback_totality (env : Env) (opts : ParsedOptions) (req : ReqModel)
    (fo : FolderOutcome) (ud : RenderedUserData) (baseDir : JStr)
    (hud : renderUserData req.query (boundsOf opts) = some ud)
    (hbase : baseDirStep opts ud fo = some baseDir)
    (hinm : req.ifNoneMatch = none) :
    (∀ fb out, resolutionFailureCase env opts baseDir ud →
      env.fallback ud.imgType = some fb →
      env.transform fb (transformOptsOf ud (outputFormatOf ud)) = some out →
      respStatus (serveImageModel env opts req fo) = some 200
        ∧ respBody (serveImageModel env opts req fo) = some out)
  ∧ (∀ buf fbn, (resolveBuffer env opts baseDir ud).1 = some buf →
      env.transform buf (transformOptsOf ud (outputFormatOf ud)) = none →
      env.fallback ImageType.normal = some fbn →
      respStatus (serveImageModel env opts req fo) = some 200
        ∧ respBody (serveImageModel env opts req fo) = some fbn) := by
  constructor
  · intro fb out hfail hfb htr
    have h1 := resolveBuffer_fst_of_failure env opts baseDir ud hfail
    rw [hfb] at h1
    have heq : serveImageModel env opts req fo = respond env opts req ud out := by
      unfold serveImageModel
      simp only [hud, hbase, h1, htr]
    rw [heq, respond_inm_none env opts req ud out hinm]
    exact ⟨rfl, rfl⟩
  · intro buf fbn hbuf htr hfbn
    have heq : serveImageModel env opts req fo = fallbackResponse env := by
      unfold serveImageModel
      simp only [hud, hbase, hbuf, htr]
    rw [heq]
    unfold fallbackResponse
    rw [hfbn]
    exact ⟨rfl, rfl⟩

/-- C2 counterexample: for a request whose source is on a disallowed remote
host, the handler responds 200 but the body is the re-encoded fallback
(`[1, 2, 9]` under a codec that appends a marker byte), which differs
byte-for-byte from the category's fallback buffer `[1, 2]` — refuting
"the response body is byte-for-byte equal to the fallback buffer". -/
theorem c2_counterexample :
    respStatus (serveImageModel blockedEnv stdOpts blockedReq (.settles [])) = some 200
  ∧ respBody (serveImageModel blockedEnv stdOpts blockedReq (.settles [])) = some [1, 2, 9]
  ∧ blockedEnv.fallback ImageType.normal = some [1, 2]
  ∧ respBody (serveImageModel blockedEnv stdOpts blockedReq (.settles [])) ≠ some [1, 2] := by
  decide

/-- C2 witness: the amended theorem applied to the disallowed-host
environment. -/
theorem c2_witness :
    respStatus (serveImageModel blockedEnv stdOpts blockedReq (.settles [])) = some 200
  ∧ respBody (serveImageModel blockedEnv stdOpts blockedReq (.settles [])) = some [1, 2, 9] :=
  (c2_fallback_totality blockedEnv stdOpts blockedReq (.settles []) blockedUD (js "/pub")
      (by decide) (by decide) rfl).1 [1, 2] [1, 2, 9]
    (Or.inr (Or.inl ⟨⟨js "http:", js "blocked.test", js "blocked.test", js "/i.jpg"⟩,
      by decide, by decide, by decide, by decide, by decide⟩))
    (by decide) (by decide)

/-- C3 (amended): a nonempty source that does not parse as an absolute URL
is always delegated to the local read path and never issues a network call
(this includes sources like `httpfoo`: the `startsWith("http")` gate routes
them into `fetchImage`, whose URL-parse failure falls back to the local
read); and a source that starts with the characters `http` and parses as an
absolute URL whose host is neither the internal host nor allow-listed
yields the category's fallback with no local read and no network call.  The
restriction to `http`-prefixed sources in the second part is forced by the
counterexample: an absolute URL with another scheme (e.g. `ftp://`) is
routed to the local read path. -/
theorem c3_classification (env : Env) (opts : ParsedOptions) (baseDir : JStr)
    (ud : RenderedUserData) :
    (ud.src ≠ [] → env.parseURL ud.src = none →
      (∀ u, Effect.netGet u ∉ (resolveBuffer env opts baseDir ud).2)
        ∧ Effect.localRead ud.src ∈ (resolveBuffer env opts baseDir ud).2)
  ∧ (∀ url, (js "http").isPrefixOf ud.src = true → env.parseURL ud.src = some url →
      isInternalHost opts.websiteURL url.hostname = false →
      opts.allowedNetworkList.contains url.hostname = false →
      opts.allowedNetworkList.contains url.host = false →
      resolveBuffer env opts baseDir ud = (env.fallback ud.imgType, [])) := by
  constructor
  · intro hne hparse
    have hne2 : ud.src.isEmpty = false := by simpa [List.isEmpty_iff] using hne
    by_cases hpfx : (js "http").isPrefixOf ud.src = true
    · have heq : resolveBuffer env opts baseDir ud
          = readLocalImage env ud.src baseDir ud.imgType (some opts.maxDownloadBytes) := by
        simp [resolveBuffer, hne2, hpfx, fetchImage, hparse]
      rw [heq]
      exact ⟨fun u => readLocalImage_no_netGet env _ _ _ _ u,
        readLocalImage_localRead_mem env _ _ _ _⟩
    · have heq : resolveBuffer env opts baseDir ud
          = readLocalImage env ud.src baseDir ud.imgType none := by
        simp [resolveBuffer, hne2, hpfx]
      rw [heq]
      exact ⟨fun u => readLocalImage_no_netGet env _ _ _ _ u,
        readLocalImage_localRead_mem env _ _ _ _⟩
  · intro url hpfx hparse hint hc1 hc2
    have hh1m : url.hostname ∉ opts.allowedNetworkList := by simpa using hc1
    have hh2m : url.host ∉ opts.allowedNetworkList := by simpa using hc2
    simp [resolveBuffer, http_prefix_ne_nil _ hpfx, hpfx, fetchImage, hparse, hint, hh1m, hh2m]

/-- C3 counterexample: the source `ftp://evil.test/x` parses as an absolute
URL whose host is neither internal nor allow-listed, yet resolution invokes
the local read (the `startsWith("http")` gate sends it down the local
path) — refuting "returns the category's fallback without invoking the
local read" for arbitrary absolute URLs. -/
theorem c3_counterexample :
    ftpEnv.parseURL ftpUD.src = some ⟨js "ftp:", js "evil.test", js "evil.test", js "/x"⟩
  ∧ isInternalHost stdOpts.websiteURL (js "evil.test") = false
  ∧ stdOpts.allowedNetworkList.contains (js "evil.test") = false
  ∧ Effect.localRead ftpUD.src ∈ (resolveBuffer ftpEnv stdOpts (js "/pub") ftpUD).2 := by
  decide

/-- C3 witness: a plain local source (`x.jpg` does not parse as a URL) is
delegated to the local read and issues no network call. -/
theorem c3_witness :
    Effect.netGet localUD.src ∉ (resolveBuffer ftpEnv stdOpts (js "/pub") localUD).2
  ∧ Effect.localRead localUD.src ∈ (resolveBuffer ftpEnv stdOpts (js "/pub") localUD).2 :=
  ⟨((c3_classification ftpEnv stdOpts (js "/pub") localUD).1 (by decide) (by decide)).1
      localUD.src,
   ((c3_classification ftpEnv stdOpts (js "/pub") localUD).1 (by decide) (by decide)).2⟩

/-- C4 (code bug): `serveImage` awaits the configured `getUserFolder`
promise with no timer race of any kind (src/pixel.ts:59-64), so a resolver
that never settles suspends the handler forever and no response is ever
sent; with a settling resolver the same request is answered 200.  The
claim's raced `requestTimeoutMs` timer does not exist in the code, though
the repository's changelog documents it as added and its newer test suite
exercises it. -/
theorem c4_folder_resolver_hangs :
    serveImageModel blockedEnv resolverOpts privateReq FolderOutcome.pending = Outcome.hang
  ∧ respStatus (serveImageModel blockedEnv resolverOpts privateReq FolderOutcome.pending) = none
  ∧ respStatus (serveImageModel blockedEnv resolverOpts privateReq
      (FolderOutcome.settles (js "/priv"))) = some 200 := by
  decide

/-- C5 (code bug): the Content-Disposition file name is interpolated
verbatim (src/pixel.ts:113-131); a source named `image"with"quotes.jpg`
produces the header value `inline; filename="image"with"quotes.jpeg"`,
which contains four double quotes (broken quoting) instead of the
underscore-sanitized name the claim (and the repository's changelog and
newer tests) require. -/
theorem c5_filename_unsanitized :
    respCD (serveImageModel blockedEnv stdOpts quotesReq (.settles []))
      = some (js "inline; filename=\"image\"with\"quotes.jpeg\"")
  ∧ (js "inline; filename=\"image\"with\"quotes.jpeg\"").count '"' = 4
  ∧ respCD (serveImageModel blockedEnv stdOpts quotesReq (.settles []))
      ≠ some (js "inline; filename=\"image_with_quotes.jpeg\"") := by
  decide

/-- C6 (code bug): `optionsSchema` has no cross-field refinement
(src/schema.ts:77-103), so a configuration with `minWidth = 5000 >
maxWidth = 100` parses successfully into a populated configuration instead
of failing validation — contradicting the repository's own schema tests,
which expect "minWidth must be less than or equal to maxWidth". -/
theorem c6_bounds_not_validated :
    optionsSchemaParse invertedBoundsInput = some invertedBoundsCfg
  ∧ invertedBoundsCfg.maxWidth < invertedBoundsCfg.minWidth := by
  decide

/-- Dissection of a successful `userDataSchema` parse: an absent quality
comes out as the schema default 80, and in-range dimensions pass through
unchanged. -/
theorem parseUserData_fields (q : UserQuery) (p : ParsedUserData)
    (h : parseUserData q = some p) :
    (q.quality = none → p.quality = some 80)
  ∧ (∀ w, q.width = some w → p.width = some w)
  ∧ (∀ hgt, q.height = some hgt → p.height = some hgt) := by
  simp only [parseUserData, Option.bind_eq_bind, Option.pure_def] at h
  obtain ⟨src, hsrc, h⟩ := Option.bind_eq_some.mp h
  obtain ⟨w, hw, h⟩ := Option.bind_eq_some.mp h
  obtain ⟨hgt, hh, h⟩ := Option.bind_eq_some.mp h
  obtain ⟨qual, hq, h⟩ := Option.bind_eq_some.mp h
  obtain ⟨fold, hf, h⟩ := Option.bind_eq_some.mp h
  obtain ⟨it, hit, h⟩ := Option.bind_eq_some.mp h
  obtain ⟨uid, huid, h⟩ := Option.bind_eq_some.mp h
  injection h with h
  subst h
  refine ⟨?_, ?_, ?_⟩
  · intro habs
    rw [habs] at hq
    injection hq with hq
    simp [← hq]
  · intro w2 hw2
    rw [hw2] at hw
    simp only [schemaDim] at hw
    split_ifs at hw with hrange
    injection hw with hw
    simp [← hw]
  · intro h2 hh2
    rw [hh2] at hh
    simp only [schemaDim] at hh
    split_ifs at hh with hrange
    injection hh with hh
    simp [← hh]

theorem parseUserData_fail_width (q : UserQuery) (w : Int) (hw : q.width = some w)
    (hout : w < 50 ∨ 4000 < w) : parseUserData q = none := by
  have hs : schemaDim q.width = none := by
    rw [hw]
    simp only [schemaDim]
    rw [if_neg]
    rintro ⟨a, b⟩
    rcases hout with hc | hc <;> omega
  unfold parseUserData
  cases hc : schemaSrc q.src
  · simp [hc]
  · simp [hc, hs]

theorem parseUserData_fail_height (q : UserQuery) (w : Int) (hw : q.height = some w)
    (hout : w < 50 ∨ 4000 < w) : parseUserData q = none := by
  have hs : schemaDim q.height = none := by
    rw [hw]
    simp only [schemaDim]
    rw [if_neg]
    rintro ⟨a, b⟩
    rcases hout with hc | hc <;> omega
  unfold parseUserData
  cases hc : schemaSrc q.src
  · simp [hc]
  · cases hcw : schemaDim q.width
    · simp [hc, hcw]
    · simp [hc, hcw, hs]

/-- C7 (amended): when the quality parameter is absent, the resolved
quality is the schema's fixed default 80 — the configured `defaultQuality`
is never consulted, because the `?? bounds.defaultQuality` in renders.ts
only fires when the schema output is undefined, and the schema's
`.default(80)` rules that out. -/
theorem c7_quality_default (q : UserQuery) (bounds : Bounds) (r : RenderedUserData)
    (habs : q.quality = none) (h : renderUserData q bounds = some r) :
    r.quality = 80 := by
  unfold renderUserData at h
  cases hp : parseUserData q with
  | none => rw [hp] at h; cases h
  | some p =>
    rw [hp] at h
    have hq := (parseUserData_fields q p hp).1 habs
    simp only [Option.map_some'] at h
    injection h with h
    subst h
    simp [hq]

/-- C7 counterexample: with configured `defaultQuality = 50` and the
quality parameter absent, the resolved quality is 80, not the configured
50 — refuting "the resolved quality equals the configured
defaultQuality". -/
theorem c7_counterexample :
    renderUserData emptyQuery quality50Bounds = some emptyQueryRendered
  ∧ quality50Bounds.defaultQuality = 50
  ∧ emptyQueryRendered.quality = 80
  ∧ emptyQueryRendered.quality ≠ quality50Bounds.defaultQuality := by
  decide

/-- C7 witness: the amended theorem applied to the empty query. -/
theorem c7_witness : emptyQueryRendered.quality = 80 :=
  c7_quality_default emptyQuery quality50Bounds emptyQueryRendered rfl (by decide)

/-- C8 (code bug): a `type=avatar` request whose transform fails receives
the bytes of the `normal` fallback, not the avatar fallback — the catch
block of `serveImage` (src/pixel.ts:143-153) loads
`FALLBACKIMAGES.normal()` unconditionally, contradicting the claim and the
repository's changelog ("now uses the requested image type"). -/
theorem c8_catch_uses_normal_fallback :
    (renderUserData avatarReq.query (boundsOf stdOpts)).map RenderedUserData.imgType
      = some ImageType.avatar
  ∧ respBody (serveImageModel failCodecEnv stdOpts avatarReq (.settles [])) = some [1, 2]
  ∧ failCodecEnv.fallback ImageType.avatar = some [5, 6]
  ∧ respBody (serveImageModel failCodecEnv stdOpts avatarReq (.settles [])) ≠ some [5, 6] := by
  decide

/-- C9: for every integer width (or height) in the schema range [50,4000]
and configured bounds `[lo, hi]` with `lo ≤ hi` both within [50,4000],
resolution yields `max lo (min hi w)` (the source's
`Math.min(Math.max(w, lo), hi)` coincides with it when `lo ≤ hi`), while a
value outside the schema range is a hard validation error, not clamped. -/
theorem c9_clamping_law (w lo hi : Int)
    (hw1 : 50 ≤ w) (hw2 : w ≤ 4000) (hlo : 50 ≤ lo) (hhi : hi ≤ 4000) (hlh : lo ≤ hi) :
    (∀ q bounds r, q.width = some w → Bounds.minWidth bounds = lo →
        Bounds.maxWidth bounds = hi → renderUserData q bounds = some r →
        r.width = some (max lo (min hi w)))
  ∧ (∀ q bounds r, q.height = some w → Bounds.minHeight bounds = lo →
        Bounds.maxHeight bounds = hi → renderUserData q bounds = some r →
        r.height = some (max lo (min hi w)))
  ∧ (∀ v q bounds, (v < 50 ∨ 4000 < v) → q.width = some v →
        renderUserData q bounds = none)
  ∧ (∀ v q bounds, (v < 50 ∨ 4000 < v) → q.height = some v →
        renderUserData q bounds = none) := by
  have hmm : min (max w lo) hi = max lo (min hi w) := by omega
  refine ⟨?_, ?_, ?_, ?_⟩
  · intro q bounds r hqw hblo hbhi hr
    unfold renderUserData at hr
    cases hp : parseUserData q with
    | none => rw [hp] at hr; cases hr
    | some p =>
      rw [hp] at hr
      have hpw := (parseUserData_fields q p hp).2.1 w hqw
      simp only [Option.map_some'] at hr
      injection hr with hr
      subst hr
      simp [clampVal, hpw, hblo, hbhi, hmm]
  · intro q bounds r hqw hblo hbhi hr
    unfold renderUserData at hr
    cases hp : parseUserData q with
    | none => rw [hp] at hr; cases hr
    | some p =>
      rw [hp] at hr
      have hpw := (parseUserData_fields q p hp).2.2 w hqw
      simp only [Option.map_some'] at hr
      injection hr with hr
      subst hr
      simp [clampVal, hpw, hblo, hbhi, hmm]
  · intro v q bounds hout hqw
    unfold renderUserData
    rw [parseUserData_fail_width q v hqw hout]
    rfl
  · intro v q bounds hout hqw
    unfold renderUserData
    rw [parseUserData_fail_height q v hqw hout]
    rfl

/-- C9 witness: width 70 clamps up to 100 and height 1000 clamps down to
500 under bounds [100, 500]. -/
theorem c9_witness :
    renderUserData clampQuery clampBounds = some clampRendered
  ∧ clampRendered.width = some (max 100 (min 500 70))
  ∧ clampRendered.height = some (max 100 (min 500 1000)) :=
  ⟨by decide,
   (c9_clamping_law 70 100 500 (by decide) (by decide) (by decide) (by decide)
      (by decide)).1 clampQuery clampBounds clampRendered rfl rfl rfl (by decide),
   (c9_clamping_law 1000 100 500 (by decide) (by decide) (by decide) (by decide)
      (by decide)).2.1 clampQuery clampBounds clampRendered rfl rfl rfl (by decide)⟩

/-- C10: for an internal reference (URL host equal to the configured
website host or its `www.` variant) whose path component begins with `/`
(as every http(s) pathname does), a path that does not match the
routing-prefix pattern is handed to the local read unchanged, still begins
with the separator, is rejected by the path validator, and the result is
the category's fallback; and any actual file read during an internal
reference implies the prefix matched and the stripped remainder passed
path validation inside the base directory. -/
theorem c10_internal_routing_invariant (env : Env) (src baseDir w : JStr)
    (imgType : ImageType) (apiPfx : JStr) (allowed : List JStr) (tm mb : Int)
    (url : URLRec)
    (hparse : env.parseURL src = some url)
    (hint : isInternalHost (some w) url.hostname = true)
    (hpath : url.pathname.head? = some sepChar) :
    (apiPfx.isPrefixOf url.pathname = false →
      isValidPath env.fs baseDir url.pathname = false
        ∧ fetchImage env src baseDir (some w) imgType apiPfx allowed tm mb
            = (env.fallback imgType, [.localRead url.pathname]))
  ∧ (∀ resolved,
      Effect.fileRead resolved
          ∈ (fetchImage env src baseDir (some w) imgType apiPfx allowed tm mb).2 →
      apiPfx.isPrefixOf url.pathname = true
        ∧ isValidPath env.fs baseDir (stripPrefixPattern apiPfx url.pathname) = true) := by
  have hfetch : fetchImage env src baseDir (some w) imgType apiPfx allowed tm mb
      = readLocalImage env (stripPrefixPattern apiPfx url.pathname) baseDir imgType
          (some mb) := by
    simp [fetchImage, hparse, hint]
  have habs : pathIsAbsolute url.pathname = true := by simp [pathIsAbsolute, hpath]
  constructor
  · intro hnom
    have hstrip : stripPrefixPattern apiPfx url.pathname = url.pathname := by
      simp [stripPrefixPattern, hnom]
    have hiv := isValidPath_false_absolute env.fs baseDir url.pathname habs
    refine ⟨hiv, ?_⟩
    rw [hfetch, hstrip, readLocalImage_invalid env _ _ _ _ hiv]
  · intro resolved hmem
    rw [hfetch] at hmem
    have hval := readLocalImage_fileRead_valid env _ _ _ _ resolved hmem
    by_cases hnom : apiPfx.isPrefixOf url.pathname = true
    · exact ⟨hnom, hval⟩
    · exfalso
      have hnom2 : apiPfx.isPrefixOf url.pathname = false := by
        cases hb : apiPfx.isPrefixOf url.pathname
        · rfl
        · exact absurd hb hnom
      have hstrip : stripPrefixPattern apiPfx url.pathname = url.pathname := by
        simp [stripPrefixPattern, hnom2]
      rw [hstrip] at hval
      rw [isValidPath_false_absolute env.fs baseDir url.pathname habs] at hval
      cases hval

/-- C10 witness: an internal URL with path `/other/i.jpg` (not matching the
`/api/v1/` routing prefix) is rejected by the validator as absolute and
resolves to the category fallback. -/
theorem c10_witness :
    isValidPath internalOtherEnv.fs (js "/pub") (js "/other/i.jpg") = false
  ∧ fetchImage internalOtherEnv (js "http://site.test/other/i.jpg") (js "/pub")
      (some (js "site.test")) ImageType.normal apiPrefixDefault [js "allowed.test"]
      5000 5000000
      = (internalOtherEnv.fallback ImageType.normal, [.localRead (js "/other/i.jpg")]) :=
  (c10_internal_routing_invariant internalOtherEnv (js "http://site.test/other/i.jpg")
    (js "/pub") (js "site.test") ImageType.normal apiPrefixDefault [js "allowed.test"]
    5000 5000000 ⟨js "http:", js "site.test", js "site.test", js "/other/i.jpg"⟩
    (by decide) (by decide) (by decide)).1 (by decide)

end PixelServe
